import Mathlib

/-!
Verification of the etcd-gui key browser, dialogs and profile management.

The definitions below are a shallow embedding of the client-side logic of the
repository: the two-stage paginated key browser (`Dashboard`), the view-value
dialog's history navigation (`ViewDialog`), the connection-profile deletion
logic (`Profiles`) and the query/mutation layer configuration (`Queries`).
Each definition is translated from the corresponding source function; theorems
state and settle the specification's claims about them.
-/

/-- An etcd key-value item as surfaced by the backend API (`EtcdItem` in
`api/etcd`): key, value and the etcd metadata fields. Revisions are modelled
as integers (JS numbers holding etcd int64 counters). -/
structure EtcdItem where
  key : String
  value : String
  create_revision : Int
  mod_revision : Int
  version : Int
  lease : Int
deriving DecidableEq, Repr

namespace Dashboard

/-- `q` is a leading segment of `s`, on character lists. Helper for the JS
`String.prototype.includes` semantics used by the search filter. -/
def leadsIn : List Char → List Char → Bool
  | [], _ => true
  | _ :: _, [] => false
  | q :: qs, c :: cs => (q = c) && leadsIn qs cs

/-- `q` occurs contiguously somewhere inside `s`, on character lists. -/
def hasSegment (q : List Char) : List Char → Bool
  | [] => leadsIn q []
  | c :: cs => leadsIn q (c :: cs) || hasSegment q cs

/-- JS `s.includes(q)`: substring containment, true for the empty query. -/
def jsIncludes (s q : String) : Bool := hasSegment q.data s.data

/-- `filteredKeys` from `Dashboard` (src/unnamed/part_005, lines 96-99):
`if (!searchQuery) return allKeys; return allKeys.filter(k => k.includes(searchQuery))`.
A JS string is falsy exactly when it is empty. -/
def filteredKeys (allKeys : List String) (searchQuery : String) : List String :=
  if searchQuery.isEmpty then allKeys
  else allKeys.filter (fun k => jsIncludes k searchQuery)

/-- Normalise an ECMAScript `Array.prototype.slice` bound: negative indices
count from the end (clamped at 0), positive ones are clamped at the length. -/
def jsSliceBound (len : Nat) (i : Int) : Nat :=
  if i < 0 then ((len : Int) + i).toNat else min i.toNat len

/-- ECMAScript `l.slice(start, stop)`: the elements from the normalised
`start` bound (inclusive) to the normalised `stop` bound (exclusive). -/
def jsSlice (l : List α) (start stop : Int) : List α :=
  (l.drop (jsSliceBound l.length start)).take
    (jsSliceBound l.length stop - jsSliceBound l.length start)

/-- `pageKeys` from `Dashboard` (src/unnamed/part_005, lines 102-105):
`const startIndex = (currentPage - 1) * pageSize;
 filteredKeys.slice(startIndex, startIndex + pageSize)`. -/
def pageKeys (filtered : List String) (page pageSize : Nat) : List String :=
  jsSlice filtered (((page : Int) - 1) * (pageSize : Int))
    (((page : Int) - 1) * (pageSize : Int) + (pageSize : Int))

/-- `paginatedData` from `Dashboard` (src/unnamed/part_005, lines 173-176):
`const set = new Set(pageKeys); pageRangeItems.filter(i => set.has(i.key))`. -/
def paginatedData (pageRangeItems : List EtcdItem) (pk : List String) : List EtcdItem :=
  pageRangeItems.filter (fun i => pk.contains i.key)

/-- The empty query is a segment of every string. -/
theorem jsIncludes_empty (s : String) : jsIncludes s "" = true := by
  show hasSegment [] s.data = true
  cases s.data with
  | nil => rfl
  | cons c cs => rfl

/-- `filteredKeys` always agrees with filtering by substring containment
(also when the query is empty, since the empty string is contained in
every key). -/
theorem filteredKeys_eq_filter (allKeys : List String) (q : String) :
    filteredKeys allKeys q = allKeys.filter (fun k => jsIncludes k q) := by
  unfold filteredKeys
  by_cases hq : q.isEmpty
  · have hempty : q = "" := (String.isEmpty_iff q).mp hq
    subst hempty
    simp only [if_pos hq]
    exact (List.filter_eq_self.mpr (fun k _ => jsIncludes_empty k)).symm
  · simp only [if_neg hq]

/-- For a page number `page ≥ 1` (page numbers in the UI start at 1), the JS
slice in `pageKeys` agrees with dropping the first `(page-1)*pageSize` keys
and taking the next `pageSize` of them. -/
theorem jsSlice_natCast (f : List α) (a ps : Nat) :
    jsSlice f (a : Int) ((a : Int) + (ps : Int)) = (f.drop a).take ps := by
  have h1 : ¬ ((a : Int) < 0) := by omega
  have h2 : ¬ ((a : Int) + (ps : Int) < 0) := by omega
  have ht1 : (a : Int).toNat = a := Int.toNat_natCast a
  have ht2 : ((a : Int) + (ps : Int)).toNat = a + ps := by omega
  unfold jsSlice jsSliceBound
  rw [if_neg h1, if_neg h2, ht1, ht2, Nat.min_def, Nat.min_def]
  split_ifs with hA hB hB
  · have hps : a + ps - a = ps := by omega
    rw [hps]
  · omega
  · rw [List.take_of_length_le (by rw [List.length_drop]),
      List.take_of_length_le (by rw [List.length_drop]; omega)]
  · rw [Nat.sub_self, List.drop_eq_nil_of_le (le_of_not_le hB), List.take_nil, List.take_zero]

theorem pageKeys_eq_drop_take (f : List String) (page ps : Nat) (h : 1 ≤ page) :
    pageKeys f page ps = (f.drop ((page - 1) * ps)).take ps := by
  have hcast : ((page : Int) - 1) * (ps : Int) = (((page - 1) * ps : Nat) : Int) := by
    push_cast [Nat.cast_sub h]
    ring
  unfold pageKeys
  rw [hcast]
  exact jsSlice_natCast f ((page - 1) * ps) ps

/-- C3: for every filtered key list, page number (≥ 1) and page size, the
current page's keys are the slice `filteredKeys[(page-1)*pageSize : page*pageSize]`;
in the concrete scenario `allKeys = ["/a","/b","/c","/d","/e"]`, empty search,
`pageSize = 2`, `page = 2`, the page keys are `["/c","/d"]`. -/
theorem pageKeys_is_slice (f : List String) (page ps : Nat) (h : 1 ≤ page) :
    pageKeys f page ps = (f.drop ((page - 1) * ps)).take ps ∧
    pageKeys (filteredKeys ["/a", "/b", "/c", "/d", "/e"] "") 2 2 = ["/c", "/d"] := by
  constructor
  · exact pageKeys_eq_drop_take f page ps h
  · decide

/-- Witness for `pageKeys_is_slice` at `page = 2`, `pageSize = 2`. -/
theorem pageKeys_is_slice_witness :
    pageKeys ["/a", "/b", "/c", "/d", "/e"] 2 2 =
      ((["/a", "/b", "/c", "/d", "/e"] : List String).drop ((2 - 1) * 2)).take 2 ∧
    pageKeys (filteredKeys ["/a", "/b", "/c", "/d", "/e"] "") 2 2 = ["/c", "/d"] :=
  pageKeys_is_slice ["/a", "/b", "/c", "/d", "/e"] 2 2 (by decide)

/-- C4: the search filter is exactly substring containment over `allKeys`:
it equals `allKeys.filter`, the empty query leaves `allKeys` unchanged, and
the result is a sublist of `allKeys` (order preserved). -/
theorem filteredKeys_spec (allKeys : List String) (q : String) :
    filteredKeys allKeys q = allKeys.filter (fun k => jsIncludes k q) ∧
    (q = "" → filteredKeys allKeys q = allKeys) ∧
    (filteredKeys allKeys q).Sublist allKeys := by
  refine ⟨filteredKeys_eq_filter allKeys q, ?_, ?_⟩
  · intro hq
    subst hq
    rfl
  · rw [filteredKeys_eq_filter]
    exact List.filter_sublist allKeys

/-- C1: every displayed item's key belongs to the current page's key set,
for any browser state and any list of items returned by the range fetch. -/
theorem paginatedData_subset_pageKeys (allKeys : List String) (q : String)
    (page ps : Nat) (rangeItems : List EtcdItem) (it : EtcdItem)
    (hit : it ∈ paginatedData rangeItems (pageKeys (filteredKeys allKeys q) page ps)) :
    it.key ∈ pageKeys (filteredKeys allKeys q) page ps := by
  unfold paginatedData at hit
  have := List.of_mem_filter hit
  simpa using this

/-- Witness for `paginatedData_subset_pageKeys`: the concurrent-insert
scenario of the spec, with `/c1` returned by the range fetch but filtered
out, and `/c` displayed with its key on the page. -/
theorem paginatedData_subset_pageKeys_witness :
    (⟨"/c", "3", 1, 1, 1, 0⟩ : EtcdItem) ∈
      paginatedData [⟨"/c", "3", 1, 1, 1, 0⟩, ⟨"/c1", "x", 9, 9, 1, 0⟩]
        (pageKeys (filteredKeys ["/a", "/b", "/c", "/d", "/e"] "") 2 2) ∧
    (⟨"/c", "3", 1, 1, 1, 0⟩ : EtcdItem).key ∈
      pageKeys (filteredKeys ["/a", "/b", "/c", "/d", "/e"] "") 2 2 :=
  ⟨by decide, paginatedData_subset_pageKeys ["/a", "/b", "/c", "/d", "/e"] "" 2 2
    [⟨"/c", "3", 1, 1, 1, 0⟩, ⟨"/c1", "x", 9, 9, 1, 0⟩] ⟨"/c", "3", 1, 1, 1, 0⟩ (by decide)⟩

/-- JS truthiness of an optional string: `undefined` and `""` are falsy. -/
def jsTruthyStr : Option String → Bool
  | none => false
  | some s => !s.isEmpty

/-- The `enabled` option computed inside `useEtcdValuesInRangeQuery`
(src/src/hooks/useEtcdQuery.ts, lines 45-58):
`enabled: enabled && !!startKey && !!endKey`. -/
def valuesInRangeQueryEnabled (enabled : Bool) (startKey endKey : Option String) : Bool :=
  enabled && jsTruthyStr startKey && jsTruthyStr endKey

/-- Whether the Dashboard issues the values-in-range fetch
(src/unnamed/part_005, lines 107-116): `firstKey = pageKeys[0]`,
`lastKey = pageKeys[pageKeys.length - 1]` (JS indexing yields `undefined`
out of bounds), and the hook is passed
`enabled: !configLoading && pageKeys.length > 0`. -/
def rangeFetchIssued (configLoading : Bool) (pk : List String) : Bool :=
  valuesInRangeQueryEnabled (!configLoading && decide (0 < pk.length))
    pk[0]? pk[pk.length - 1]?

/-- The `[startKey, endKey]` bounds handed to the range query when it is
issued (`none` when the query is disabled). -/
def rangeFetchBounds (configLoading : Bool) (pk : List String) : Option (String × String) :=
  if rangeFetchIssued configLoading pk then
    match pk[0]?, pk[pk.length - 1]? with
    | some f, some l => some (f, l)
    | _, _ => none
  else none

theorem jsTruthyStr_of_ne (s : String) (h : s ≠ "") : jsTruthyStr (some s) = true := by
  show (!s.isEmpty) = true
  have hf : s.isEmpty = false := by
    cases hsi : s.isEmpty
    · rfl
    · exact absurd ((String.isEmpty_iff s).mp hsi) h
  rw [hf]
  rfl

/-- C2 counterexample: for `pageKeys = [""]` the range fetch is not issued
even though `pageKeys` is non-empty, because the hook's guard
`enabled && !!startKey && !!endKey` treats the empty-string key as falsy.
Hence "the fetch is issued if and only if pageKeys is non-empty" fails
as literally stated. -/
theorem rangeFetch_iff_counterexample :
    ¬ (rangeFetchIssued false [""] = true ↔ ([""] : List String) ≠ []) := by
  decide

/-- C2 (amended): provided no key on the page is the empty string (etcd keys
are non-empty), the range fetch is issued exactly when `pageKeys` is
non-empty, and when issued its bounds are exactly `pageKeys[0]` and
`pageKeys[pageKeys.length - 1]`. -/
theorem rangeFetch_gating (pk : List String) (hne : "" ∉ pk) :
    (rangeFetchIssued false pk = true ↔ pk ≠ []) ∧
    (∀ f l, pk[0]? = some f → pk[pk.length - 1]? = some l →
      rangeFetchIssued false pk = true →
      rangeFetchBounds false pk = some (f, l)) := by
  constructor
  · cases pk with
    | nil =>
      constructor
      · intro h
        exact absurd h (by decide)
      · intro h
        exact absurd rfl h
    | cons k rest =>
      constructor
      · intro _
        exact List.cons_ne_nil k rest
      · intro _
        have hlen : (k :: rest).length - 1 < (k :: rest).length := by
          simp
        have hk1 : (k :: rest)[0]? = some k := List.getElem?_cons_zero
        obtain ⟨last, hl1⟩ : ∃ x, (k :: rest)[(k :: rest).length - 1]? = some x :=
          ⟨(k :: rest).get ⟨(k :: rest).length - 1, hlen⟩, List.getElem?_eq_getElem hlen⟩
        have hkne : k ≠ "" := fun e => hne (e ▸ List.mem_cons_self k rest)
        have hlne : last ≠ "" := fun e => hne (e ▸ List.getElem?_mem hl1)
        unfold rangeFetchIssued valuesInRangeQueryEnabled
        rw [hk1, hl1, jsTruthyStr_of_ne k hkne, jsTruthyStr_of_ne _ hlne]
        simp
  · intro f l hf hl hiss
    unfold rangeFetchBounds
    rw [if_pos hiss, hf, hl]

/-- Witness for `rangeFetch_gating` on the page `["/c", "/d"]`. -/
theorem rangeFetch_gating_witness :
    ("" ∉ (["/c", "/d"] : List String)) ∧
    (rangeFetchIssued false ["/c", "/d"] = true ↔ (["/c", "/d"] : List String) ≠ []) ∧
    rangeFetchBounds false ["/c", "/d"] = some ("/c", "/d") :=
  ⟨by decide, (rangeFetch_gating ["/c", "/d"] (by decide)).1,
    (rangeFetch_gating ["/c", "/d"] (by decide)).2 "/c" "/d" (by decide) (by decide) (by decide)⟩

/-- The ephemeral pagination state of `Dashboard` (src/unnamed/part_005,
lines 71-76): the prefix input (`keyPrefix` in the source), the search
input, the current (1-based) page, and the page size. -/
structure BrowserState where
  keyPrefixText : String
  searchQuery : String
  currentPage : Nat
  pageSize : Nat
deriving DecidableEq, Repr

/-- Typing in the prefix input (src/unnamed/part_005, line 228):
`onChange = e => setKeyPrefix(e.target.value)` — no page reset. -/
def prefixInputChange (s : BrowserState) (v : String) : BrowserState :=
  { s with keyPrefixText := v }

/-- `handleManualRefresh` (src/unnamed/part_005, lines 165-170): refetches
the key list and values and records path history; it does not modify the
pagination state. -/
def handleManualRefresh (s : BrowserState) : BrowserState := s

/-- Search input `onChange` (src/unnamed/part_005, lines 304-307):
`setSearchQuery(v); setCurrentPage(1)`. -/
def searchInputChange (s : BrowserState) (v : String) : BrowserState :=
  { s with searchQuery := v, currentPage := 1 }

/-- The clear-search end element (src/unnamed/part_005, lines 188-197):
`setSearchQuery(""); setCurrentPage(1)`. -/
def clearSearch (s : BrowserState) : BrowserState :=
  { s with searchQuery := "", currentPage := 1 }

/-- Page-size `Select.Root` `onValueChange` (src/unnamed/part_005, lines
420-425): `setPageSize(Number(val.value)); setCurrentPage(1)`. -/
def pageSizeChange (s : BrowserState) (n : Nat) : BrowserState :=
  { s with pageSize := n, currentPage := 1 }

/-- `handleSelectPath` (src/unnamed/part_005, lines 179-185): selecting a
prefix from the history dropdown: `setKeyPrefix(path); setCurrentPage(1)`. -/
def handleSelectPath (s : BrowserState) (path : String) : BrowserState :=
  { s with keyPrefixText := path, currentPage := 1 }

/-- The page keys derived (reactively) from a browser state and a key list. -/
def derivedPageKeys (allKeys : List String) (s : BrowserState) : List String :=
  pageKeys (filteredKeys allKeys s.searchQuery) s.currentPage s.pageSize

/-- C5 counterexample: changing the prefix through the input field and
invoking the manual refresh (Enter key or Refresh button) does NOT reset
the page: from page 3, the page is still 3 afterwards. `handleManualRefresh`
contains no `setCurrentPage(1)`. -/
theorem prefixRefresh_no_reset_counterexample :
    (handleManualRefresh (prefixInputChange ⟨"/a", "", 3, 5⟩ "/b")).currentPage ≠ 1 := by
  decide

/-- C5 (amended): changing the search query (typing or clearing), the page
size, or the prefix via the history dropdown resets the page to 1, and for a
search change the reset lands in the same state transition, so the derived
page keys are computed with page 1; but changing the prefix via the input
plus manual refresh leaves the page unchanged. -/
theorem page_reset_transitions (s : BrowserState) (v : String) (n : Nat)
    (allKeys : List String) :
    (searchInputChange s v).currentPage = 1 ∧
    (clearSearch s).currentPage = 1 ∧
    (pageSizeChange s n).currentPage = 1 ∧
    (handleSelectPath s v).currentPage = 1 ∧
    derivedPageKeys allKeys (searchInputChange s v) =
      pageKeys (filteredKeys allKeys v) 1 s.pageSize ∧
    (handleManualRefresh (prefixInputChange s v)).currentPage = s.currentPage :=
  ⟨rfl, rfl, rfl, rfl, rfl, rfl⟩

end Dashboard

namespace ViewDialog

/-- Outcome of the remote `getKeyAtRevision` call as observed by the dialog:
the promise resolves with an item, resolves with `null` (no version at that
revision), or rejects (remote failure, the `catch` branch). -/
inductive FetchOutcome where
  | found (it : EtcdItem)
  | notFound
  | failure
deriving DecidableEq, Repr

/-- Toast notification level (`type`) used by the dialog. -/
inductive ToastKind where
  | info
  | error
deriving DecidableEq, Repr

/-- A toast raised by the dialog, by level and title. -/
structure ToastMsg where
  kind : ToastKind
  title : String
deriving DecidableEq, Repr

/-- The dialog's history navigation state: the in-memory stack of fetched
versions (`historyStack`) and the cursor (`historyIndex`), 0 = latest.
From ViewValueDialog.tsx, lines 81-82. -/
structure HistoryState where
  historyStack : List EtcdItem
  historyIndex : Nat
deriving DecidableEq, Repr

/-- `currentHistoryItem = historyStack[historyIndex]` (ViewValueDialog.tsx,
line 94; JS indexing yields `undefined` out of bounds). -/
def currentHistoryItem (s : HistoryState) : Option EtcdItem :=
  s.historyStack[s.historyIndex]?

/-- The `useEffect` initialisation (ViewValueDialog.tsx, lines 87-92):
`setHistoryStack([item]); setHistoryIndex(0)`. -/
def initHistory (item : EtcdItem) : HistoryState := ⟨[item], 0⟩

/-- Result of one invocation of `handleOlder`: new dialog state, the
`(key, revision)` fetch request issued (if any), the item the fetch
resolved with (if any), and the toast raised (if any). -/
structure OlderResult where
  state : HistoryState
  fetchReq : Option (String × Int)
  fetched : Option EtcdItem
  toast : Option ToastMsg
deriving DecidableEq, Repr

/-- `handleOlder` (ViewValueDialog.tsx, lines 124-155), with the remote
`getKeyAtRevision` modelled by the pure `oracle`:
early return when no current item; an informational toast and no fetch at
the creation revision; a pure index move when the next position is already
in the stack; otherwise a fetch of `mod_revision - 1`, appending the result
to the stack on success. -/
def handleOlder (oracle : String → Int → FetchOutcome) (keyToView : String)
    (s : HistoryState) : OlderResult :=
  match s.historyStack[s.historyIndex]? with
  | none => ⟨s, none, none, none⟩
  | some cur =>
    if cur.mod_revision = cur.create_revision then
      ⟨s, none, none, some ⟨ToastKind.info, "Reached creation revision"⟩⟩
    else if s.historyIndex + 1 < s.historyStack.length then
      ⟨⟨s.historyStack, s.historyIndex + 1⟩, none, none, none⟩
    else
      match oracle keyToView (cur.mod_revision - 1) with
      | FetchOutcome.found res =>
          ⟨⟨s.historyStack ++ [res], s.historyIndex + 1⟩,
            some (keyToView, cur.mod_revision - 1), some res, none⟩
      | FetchOutcome.notFound =>
          ⟨s, some (keyToView, cur.mod_revision - 1), none,
            some ⟨ToastKind.info, "No older version found"⟩⟩
      | FetchOutcome.failure =>
          ⟨s, some (keyToView, cur.mod_revision - 1), none,
            some ⟨ToastKind.error, "Error"⟩⟩

/-- `handleNewer` (ViewValueDialog.tsx, lines 157-161):
`if (historyIndex > 0) setHistoryIndex(historyIndex - 1)`. -/
def handleNewer (s : HistoryState) : HistoryState :=
  if 0 < s.historyIndex then ⟨s.historyStack, s.historyIndex - 1⟩ else s

/-- `handleLatest` (ViewValueDialog.tsx, lines 163-165): `setHistoryIndex(0)`. -/
def handleLatest (s : HistoryState) : HistoryState := ⟨s.historyStack, 0⟩

/-- A user action on the history navigation bar. -/
inductive NavStep where
  | older
  | newer
  | latest
deriving DecidableEq, Repr

/-- Execute one navigation action: the new state, plus the item that action
successfully fetched, if any ("newer" and "latest" never fetch). -/
def runStep (oracle : String → Int → FetchOutcome) (key : String)
    (s : HistoryState) : NavStep → HistoryState × Option EtcdItem
  | NavStep.older => ((handleOlder oracle key s).state, (handleOlder oracle key s).fetched)
  | NavStep.newer => (handleNewer s, none)
  | NavStep.latest => (handleLatest s, none)

/-- Execute a sequence of navigation actions, accumulating the successfully
fetched items most-recent-first. -/
def runTraceAux (oracle : String → Int → FetchOutcome) (key : String) :
    List NavStep → HistoryState → List EtcdItem → HistoryState × List EtcdItem
  | [], s, log => (s, log)
  | st :: rest, s, log =>
      runTraceAux oracle key rest (runStep oracle key s st).1
        ((runStep oracle key s st).2.toList ++ log)

/-- Open the dialog on `item` and execute a sequence of navigation actions,
returning the final state and the successfully fetched items,
most-recent-first. -/
def runTrace (oracle : String → Int → FetchOutcome) (key : String)
    (steps : List NavStep) (item : EtcdItem) : HistoryState × List EtcdItem :=
  runTraceAux oracle key steps (initHistory item) []

/-- The etcd contract for `getKeyAtRevision` (spec §4.1): a point lookup "as
of revision r" only ever returns an item whose `mod_revision` is at most `r`. -/
def OracleConsistent (oracle : String → Int → FetchOutcome) : Prop :=
  ∀ k r it, oracle k r = FetchOutcome.found it → it.mod_revision ≤ r

/-- An item at its creation revision, for concrete instantiations. -/
def itemAtCreation : EtcdItem := ⟨"/k", "v", 5, 5, 1, 0⟩

/-- A remote that always reports that no older version exists. -/
def oracleNotFound : String → Int → FetchOutcome := fun _ _ => FetchOutcome.notFound

/-- A remote returning, for each requested revision, an item modified at
exactly that revision (hence consistent with the etcd contract). -/
def oracleAtRev : String → Int → FetchOutcome :=
  fun k r => FetchOutcome.found ⟨k, "v", r, r, 1, 0⟩

/-- C6: invoking "older" when the displayed version's `mod_revision` equals
its `create_revision` issues no fetch, raises an informational (non-error)
toast, and leaves the history stack and index unchanged. -/
theorem older_at_creation_revision (oracle : String → Int → FetchOutcome)
    (key : String) (s : HistoryState) (cur : EtcdItem)
    (hcur : currentHistoryItem s = some cur)
    (heq : cur.mod_revision = cur.create_revision) :
    handleOlder oracle key s =
      ⟨s, none, none, some ⟨ToastKind.info, "Reached creation revision"⟩⟩ := by
  unfold currentHistoryItem at hcur
  unfold handleOlder
  simp only [hcur]
  rw [if_pos heq]

/-- Witness for `older_at_creation_revision`: a freshly opened dialog on an
item that was never rewritten. -/
theorem older_at_creation_revision_witness :
    handleOlder oracleNotFound "/k" (initHistory itemAtCreation) =
      ⟨initHistory itemAtCreation, none, none,
        some ⟨ToastKind.info, "Reached creation revision"⟩⟩ :=
  older_at_creation_revision oracleNotFound "/k" (initHistory itemAtCreation)
    itemAtCreation (by decide) (by decide)

/-- "Older" with the next position already cached: a pure index move, no
fetch, no toast. -/
theorem handleOlder_cached (oracle : String → Int → FetchOutcome) (key : String)
    (s : HistoryState) (cur : EtcdItem)
    (hcur : currentHistoryItem s = some cur)
    (hne : cur.mod_revision ≠ cur.create_revision)
    (hlt : s.historyIndex + 1 < s.historyStack.length) :
    handleOlder oracle key s = ⟨⟨s.historyStack, s.historyIndex + 1⟩, none, none, none⟩ := by
  unfold currentHistoryItem at hcur
  unfold handleOlder
  simp only [hcur]
  rw [if_neg hne, if_pos hlt]

/-- "Older" either issues no fetch, or issues exactly the request
`(key, cur.mod_revision - 1)` and only when the next position is not yet in
the stack. -/
theorem handleOlder_fetchReq (oracle : String → Int → FetchOutcome) (key : String)
    (s : HistoryState) (cur : EtcdItem)
    (hcur : currentHistoryItem s = some cur) :
    (handleOlder oracle key s).fetchReq = none ∨
    ((handleOlder oracle key s).fetchReq = some (key, cur.mod_revision - 1) ∧
      s.historyStack.length ≤ s.historyIndex + 1) := by
  unfold currentHistoryItem at hcur
  unfold handleOlder
  simp only [hcur]
  split
  · exact Or.inl rfl
  · split
    · exact Or.inl rfl
    next hge =>
      split
      · exact Or.inr ⟨rfl, by omega⟩
      · exact Or.inr ⟨rfl, by omega⟩
      · exact Or.inr ⟨rfl, by omega⟩

/-- The possible state transitions of "older": unchanged, index move onto a
cached position, or append-and-move after a successful fetch. -/
theorem handleOlder_state_cases (oracle : String → Int → FetchOutcome)
    (key : String) (s : HistoryState) :
    (handleOlder oracle key s).state = s ∨
    ((handleOlder oracle key s).state = ⟨s.historyStack, s.historyIndex + 1⟩ ∧
      s.historyIndex + 1 < s.historyStack.length) ∨
    (∃ res, (handleOlder oracle key s).state = ⟨s.historyStack ++ [res], s.historyIndex + 1⟩ ∧
      s.historyIndex < s.historyStack.length) := by
  unfold handleOlder
  split
  · exact Or.inl rfl
  next cur hcur =>
    have hidx : s.historyIndex < s.historyStack.length :=
      (List.getElem?_eq_some_iff.mp hcur).1
    split
    · exact Or.inl rfl
    · split
      next hlt => exact Or.inr (Or.inl ⟨rfl, hlt⟩)
      next hge =>
        split
        next res hres => exact Or.inr (Or.inr ⟨res, rfl, hidx⟩)
        · exact Or.inl rfl
        · exact Or.inl rfl

/-- When "older" does not successfully fetch, the stack is unchanged. -/
theorem handleOlder_fetched_none (oracle : String → Int → FetchOutcome)
    (key : String) (s : HistoryState)
    (h : (handleOlder oracle key s).fetched = none) :
    (handleOlder oracle key s).state.historyStack = s.historyStack := by
  revert h
  unfold handleOlder
  split
  · intro _; rfl
  · split
    · intro _; rfl
    · split
      · intro _; rfl
      · split
        · intro h; exact absurd h (by simp)
        · intro _; rfl
        · intro _; rfl

/-- When "older" successfully fetches `a`, the stack is extended by `a`,
and `a` is strictly older than the previous top of the stack. -/
theorem handleOlder_fetched_some (oracle : String → Int → FetchOutcome)
    (key : String) (s : HistoryState) (a : EtcdItem)
    (hcons : OracleConsistent oracle)
    (h : (handleOlder oracle key s).fetched = some a) :
    (handleOlder oracle key s).state.historyStack = s.historyStack ++ [a] ∧
    ∃ t, s.historyStack.getLast? = some t ∧ a.mod_revision < t.mod_revision := by
  revert h
  unfold handleOlder
  split
  · intro h; exact absurd h (by simp)
  next cur hcur =>
    have hidx : s.historyIndex < s.historyStack.length :=
      (List.getElem?_eq_some_iff.mp hcur).1
    split
    · intro h; exact absurd h (by simp)
    · split
      · intro h; exact absurd h (by simp)
      next hge =>
        split
        next res hres =>
          intro h
          have hra : res = a := by
            simpa using h
          subst hra
          refine ⟨rfl, cur, ?_, ?_⟩
          · have hlast : s.historyIndex = s.historyStack.length - 1 := by omega
            rw [List.getLast?_eq_getElem?, ← hlast]
            exact hcur
          · have hle : res.mod_revision ≤ cur.mod_revision - 1 :=
              hcons key (cur.mod_revision - 1) res hres
            omega
        · intro h; exact absurd h (by simp)
        · intro h; exact absurd h (by simp)

/-- Invariant tying a navigation state to the log of successfully fetched
items (most-recent-first): the logged revisions strictly increase towards
the past of the log, and the current top of the stack is at most as recent
as everything ever logged. -/
def goodLog (s : HistoryState) (log : List EtcdItem) : Prop :=
  log.Pairwise (fun a b => a.mod_revision < b.mod_revision) ∧
  ∀ x ∈ log, ∀ t, s.historyStack.getLast? = some t → t.mod_revision ≤ x.mod_revision

theorem runStep_goodLog (oracle : String → Int → FetchOutcome) (key : String)
    (hcons : OracleConsistent oracle) (s : HistoryState) (st : NavStep)
    (log : List EtcdItem) (h : goodLog s log) :
    goodLog (runStep oracle key s st).1 ((runStep oracle key s st).2.toList ++ log) := by
  have hstack_pure : ∀ s' : HistoryState, s'.historyStack = s.historyStack →
      goodLog s' log := by
    intro s' hs'
    exact ⟨h.1, fun x hx t ht => h.2 x hx t (by rw [← hs']; exact ht)⟩
  cases st with
  | newer =>
    show goodLog (handleNewer s) (Option.toList none ++ log)
    rw [Option.toList, List.nil_append]
    apply hstack_pure
    unfold handleNewer
    split <;> rfl
  | latest =>
    show goodLog (handleLatest s) (Option.toList none ++ log)
    rw [Option.toList, List.nil_append]
    exact hstack_pure (handleLatest s) rfl
  | older =>
    show goodLog (handleOlder oracle key s).state
      ((handleOlder oracle key s).fetched.toList ++ log)
    cases hf : (handleOlder oracle key s).fetched with
    | none =>
      rw [Option.toList, List.nil_append]
      exact hstack_pure _ (handleOlder_fetched_none oracle key s hf)
    | some a =>
      obtain ⟨hstk, t, hlast, hmod⟩ := handleOlder_fetched_some oracle key s a hcons hf
      rw [Option.toList, List.singleton_append]
      constructor
      · refine List.Pairwise.cons ?_ h.1
        intro x hx
        exact lt_of_lt_of_le hmod (h.2 x hx t hlast)
      · intro x hx t' ht'
        rw [hstk, List.getLast?_concat] at ht'
        have hta : t' = a := by
          have := ht'
          injection this with hv
          exact hv.symm
        subst hta
        rcases List.mem_cons.mp hx with hxa | hxl
        · subst hxa
          exact le_refl _
        · exact le_of_lt (lt_of_lt_of_le hmod (h.2 x hxl t hlast))

theorem runTraceAux_goodLog (oracle : String → Int → FetchOutcome) (key : String)
    (hcons : OracleConsistent oracle) :
    ∀ (steps : List NavStep) (s : HistoryState) (log : List EtcdItem),
      goodLog s log →
      goodLog (runTraceAux oracle key steps s log).1 (runTraceAux oracle key steps s log).2 := by
  intro steps
  induction steps with
  | nil =>
    intro s log h
    exact h
  | cons st rest ih =>
    intro s log h
    exact ih _ _ (runStep_goodLog oracle key hcons s st log h)

/-- Over any sequence of older/newer/latest steps from a freshly opened
dialog, the successfully fetched history versions have pairwise distinct
revisions: each older version is fetched at most once. -/
theorem runTrace_fetched_nodup (oracle : String → Int → FetchOutcome) (key : String)
    (steps : List NavStep) (item : EtcdItem) (hcons : OracleConsistent oracle) :
    ((runTrace oracle key steps item).2.map EtcdItem.mod_revision).Nodup := by
  have h0 : goodLog (initHistory item) [] := by
    constructor
    · exact List.Pairwise.nil
    · intro x hx
      cases hx
  have h := runTraceAux_goodLog oracle key hcons steps (initHistory item) [] h0
  have hpw : ((runTrace oracle key steps item).2.map EtcdItem.mod_revision).Pairwise
      (fun a b => a ≠ b) := by
    rw [List.pairwise_map]
    exact h.1.imp (fun hab => ne_of_lt hab)
  exact hpw

theorem handleNewer_succ (stk : List EtcdItem) (n : Nat) :
    handleNewer ⟨stk, n + 1⟩ = ⟨stk, n⟩ := by
  unfold handleNewer
  rw [if_pos (Nat.succ_pos n)]
  rfl

/-- When "older" moved the cursor forward, "newer" brings back exactly the
item displayed before, without any fetch ("newer" never fetches). -/
theorem newer_restores (oracle : String → Int → FetchOutcome) (key : String)
    (s : HistoryState) (cur : EtcdItem)
    (hcur : currentHistoryItem s = some cur)
    (hmoved : (handleOlder oracle key s).state.historyIndex = s.historyIndex + 1) :
    currentHistoryItem (handleNewer (handleOlder oracle key s).state) = some cur := by
  have hidx : s.historyIndex < s.historyStack.length :=
    (List.getElem?_eq_some_iff.mp hcur).1
  rcases handleOlder_state_cases oracle key s with hs | ⟨hs, _⟩ | ⟨res, hs, _⟩
  · rw [hs] at hmoved
    omega
  · rw [hs, handleNewer_succ]
    exact hcur
  · rw [hs, handleNewer_succ]
    unfold currentHistoryItem at hcur ⊢
    rw [List.getElem?_append_left hidx]
    exact hcur

/-- From the latest item (index 0), after any "older", "latest" brings back
exactly the item displayed before, without any fetch. -/
theorem latest_restores (oracle : String → Int → FetchOutcome) (key : String)
    (s : HistoryState) (cur : EtcdItem)
    (hcur : currentHistoryItem s = some cur)
    (h0 : s.historyIndex = 0) :
    currentHistoryItem (handleLatest (handleOlder oracle key s).state) = some cur := by
  have hidx : s.historyIndex < s.historyStack.length :=
    (List.getElem?_eq_some_iff.mp hcur).1
  unfold currentHistoryItem at hcur
  rw [h0] at hcur hidx
  rcases handleOlder_state_cases oracle key s with hs | ⟨hs, _⟩ | ⟨res, hs, _⟩ <;>
    rw [hs] <;> unfold handleLatest currentHistoryItem
  · exact hcur
  · exact hcur
  · rw [List.getElem?_append_left hidx]
    exact hcur

/-- C7: history navigation caches fetched versions: "older" onto an
already-cached position is a pure index move (no fetch); any fetch it does
issue targets `mod_revision - 1` of the current item and happens only when
the next position is not yet in the stack; "newer" (and, from the latest
item, "latest") after "older" restores exactly the previously displayed
item, and neither ever fetches; and over any sequence of steps each older
version is successfully fetched at most once. -/
theorem history_cache_at_most_once (oracle : String → Int → FetchOutcome)
    (key : String) (s : HistoryState) (cur : EtcdItem) (steps : List NavStep)
    (item : EtcdItem)
    (hcons : OracleConsistent oracle)
    (hcur : currentHistoryItem s = some cur) :
    (cur.mod_revision ≠ cur.create_revision → s.historyIndex + 1 < s.historyStack.length →
      handleOlder oracle key s = ⟨⟨s.historyStack, s.historyIndex + 1⟩, none, none, none⟩) ∧
    ((handleOlder oracle key s).fetchReq = none ∨
      ((handleOlder oracle key s).fetchReq = some (key, cur.mod_revision - 1) ∧
        s.historyStack.length ≤ s.historyIndex + 1)) ∧
    ((handleOlder oracle key s).state.historyIndex = s.historyIndex + 1 →
      currentHistoryItem (handleNewer (handleOlder oracle key s).state) = some cur) ∧
    (s.historyIndex = 0 →
      currentHistoryItem (handleLatest (handleOlder oracle key s).state) = some cur) ∧
    (runStep oracle key s NavStep.newer).2 = none ∧
    (runStep oracle key s NavStep.latest).2 = none ∧
    ((runTrace oracle key steps item).2.map EtcdItem.mod_revision).Nodup := by
  refine ⟨?_, ?_, ?_, ?_, rfl, rfl, ?_⟩
  · intro hne hlt
    exact handleOlder_cached oracle key s cur hcur hne hlt
  · exact handleOlder_fetchReq oracle key s cur hcur
  · intro hmoved
    exact newer_restores oracle key s cur hcur hmoved
  · intro h0
    exact latest_restores oracle key s cur hcur h0
  · exact runTrace_fetched_nodup oracle key steps item hcons

/-- A sample item rewritten since its creation (`create_revision 1`,
`mod_revision 5`). -/
def sampleHistItem : EtcdItem := ⟨"/k", "v2", 1, 5, 2, 0⟩

/-- The dialog freshly opened on `sampleHistItem`. -/
def sampleHistState : HistoryState := ⟨[sampleHistItem], 0⟩

theorem oracleAtRev_consistent : OracleConsistent oracleAtRev := by
  intro k r it h
  injection h with hv
  rw [← hv]

/-- Witness for `history_cache_at_most_once`: the hypotheses hold for the
revision-consistent remote `oracleAtRev` and the freshly opened dialog, and
an older/newer/older trace fetches pairwise distinct revisions. -/
theorem history_cache_at_most_once_witness :
    OracleConsistent oracleAtRev ∧
    currentHistoryItem sampleHistState = some sampleHistItem ∧
    ((runTrace oracleAtRev "/k" [NavStep.older, NavStep.newer, NavStep.older]
        sampleHistItem).2.map EtcdItem.mod_revision).Nodup :=
  ⟨oracleAtRev_consistent, by decide,
    (history_cache_at_most_once oracleAtRev "/k" sampleHistState sampleHistItem
      [NavStep.older, NavStep.newer, NavStep.older] sampleHistItem
      oracleAtRev_consistent (by decide)).2.2.2.2.2.2⟩

/-- C10: the history cursor stays in bounds: initialization establishes
`historyIndex < historyStack.length`, every navigation action preserves it
(whenever the stack is non-empty), "older" moves the index forward by at
most one and reaches `index + 1` only when that position exists in the
(possibly just extended) stack, and "newer"/"latest" only move the index
down towards 0. -/
theorem history_index_in_bounds (oracle : String → Int → FetchOutcome)
    (key : String) (s : HistoryState) (st : NavStep) (item : EtcdItem)
    (hinv : s.historyStack ≠ [] → s.historyIndex < s.historyStack.length) :
    ((initHistory item).historyIndex < (initHistory item).historyStack.length) ∧
    ((runStep oracle key s st).1.historyStack ≠ [] →
      (runStep oracle key s st).1.historyIndex <
        (runStep oracle key s st).1.historyStack.length) ∧
    ((handleOlder oracle key s).state.historyIndex ≤ s.historyIndex + 1) ∧
    ((handleOlder oracle key s).state.historyIndex = s.historyIndex + 1 →
      s.historyIndex + 1 < (handleOlder oracle key s).state.historyStack.length) ∧
    ((handleNewer s).historyIndex ≤ s.historyIndex) ∧
    ((handleLatest s).historyIndex = 0) := by
  refine ⟨Nat.zero_lt_one, ?_, ?_, ?_, ?_, rfl⟩
  · cases st with
    | newer =>
      show (handleNewer s).historyStack ≠ [] →
        (handleNewer s).historyIndex < (handleNewer s).historyStack.length
      unfold handleNewer
      split
      · intro h
        have hlt := hinv h
        show s.historyIndex - 1 < s.historyStack.length
        omega
      · exact hinv
    | latest =>
      intro h
      exact List.length_pos.mpr h
    | older =>
      rcases handleOlder_state_cases oracle key s with hs | ⟨hs, hlt⟩ | ⟨res, hs, hidx⟩ <;>
        (show (handleOlder oracle key s).state.historyStack ≠ [] →
          (handleOlder oracle key s).state.historyIndex <
            (handleOlder oracle key s).state.historyStack.length
         rw [hs])
      · exact hinv
      · intro _
        exact hlt
      · intro _
        show s.historyIndex + 1 < (s.historyStack ++ [res]).length
        have hlen : (s.historyStack ++ [res]).length = s.historyStack.length + 1 := by
          simp
        omega
  · rcases handleOlder_state_cases oracle key s with hs | ⟨hs, _⟩ | ⟨res, hs, _⟩ <;> rw [hs]
    exact Nat.le_succ s.historyIndex
  · rcases handleOlder_state_cases oracle key s with hs | ⟨hs, hlt⟩ | ⟨res, hs, hidx⟩ <;> rw [hs]
    · intro h
      exact absurd h (by omega)
    · intro _
      exact hlt
    · intro _
      show s.historyIndex + 1 < (s.historyStack ++ [res]).length
      have hlen : (s.historyStack ++ [res]).length = s.historyStack.length + 1 := by
        simp
      omega
  · unfold handleNewer
    split
    · exact Nat.sub_le s.historyIndex 1
    · exact le_refl _

/-- Witness for `history_index_in_bounds`: a two-deep stack with the cursor
on the older entry, stepping "newer". -/
theorem history_index_in_bounds_witness :
    ((⟨[sampleHistItem, ⟨"/k", "v", 1, 1, 1, 0⟩], 1⟩ : HistoryState).historyStack ≠ [] →
      (⟨[sampleHistItem, ⟨"/k", "v", 1, 1, 1, 0⟩], 1⟩ : HistoryState).historyIndex <
        (⟨[sampleHistItem, ⟨"/k", "v", 1, 1, 1, 0⟩], 1⟩ : HistoryState).historyStack.length) ∧
    ((initHistory sampleHistItem).historyIndex <
      (initHistory sampleHistItem).historyStack.length) ∧
    ((runStep oracleAtRev "/k" ⟨[sampleHistItem, ⟨"/k", "v", 1, 1, 1, 0⟩], 1⟩
        NavStep.newer).1.historyStack ≠ [] →
      (runStep oracleAtRev "/k" ⟨[sampleHistItem, ⟨"/k", "v", 1, 1, 1, 0⟩], 1⟩
          NavStep.newer).1.historyIndex <
        (runStep oracleAtRev "/k" ⟨[sampleHistItem, ⟨"/k", "v", 1, 1, 1, 0⟩], 1⟩
            NavStep.newer).1.historyStack.length) :=
  ⟨by intro h; decide,
    (history_index_in_bounds oracleAtRev "/k" ⟨[sampleHistItem, ⟨"/k", "v", 1, 1, 1, 0⟩], 1⟩
      NavStep.newer sampleHistItem (fun _ => by decide)).1,
    (history_index_in_bounds oracleAtRev "/k" ⟨[sampleHistItem, ⟨"/k", "v", 1, 1, 1, 0⟩], 1⟩
      NavStep.newer sampleHistItem (fun _ => by decide)).2.1⟩

end ViewDialog

namespace Profiles

/-- An etcd endpoint of a connection profile. -/
structure Endpoint where
  host : String
  port : Nat
deriving DecidableEq, Repr

/-- A connection profile (`Profile` in `api/etcd`); only the fields the
deletion logic inspects are carried — the name identifies the profile. -/
structure Profile where
  name : String
  endpoints : List Endpoint
deriving DecidableEq, Repr

/-- The app-wide configuration as seen by the Profiles page: the profile
list and the (possibly null) current profile name. -/
structure AppConfigModel where
  profiles : List Profile
  current_profile : Option String
deriving DecidableEq, Repr

/-- `confirmDeleteProfile` (src/unnamed/part_006, lines 89-115): filter out
the selected profile by name; if the deleted profile was the active one,
reassign `current_profile` to the first remaining profile, or `null` when
none remain; otherwise keep `current_profile`. -/
def confirmDeleteProfile (config : AppConfigModel) (selectedName : String) : AppConfigModel :=
  let updatedProfiles := config.profiles.filter (fun p => p.name != selectedName)
  let current :=
    if config.current_profile = some selectedName then
      match updatedProfiles with
      | [] => none
      | p :: _ => some p.name
    else config.current_profile
  ⟨updatedProfiles, current⟩

/-- Removing one present, uniquely named profile shrinks the list by
exactly one. -/
theorem filter_ne_length (l : List Profile) (sel : String)
    (hnodup : (l.map Profile.name).Nodup) (hsel : sel ∈ l.map Profile.name) :
    (l.filter (fun p => p.name != sel)).length + 1 = l.length := by
  induction l with
  | nil =>
    cases hsel
  | cons p rest ih =>
    rw [List.map_cons, List.nodup_cons] at hnodup
    by_cases hp : p.name = sel
    · have hall : rest.filter (fun q => q.name != sel) = rest := by
        apply List.filter_eq_self.mpr
        intro q hq
        have hqne : q.name ≠ sel := by
          intro he
          exact hnodup.1 (by rw [hp, ← he]; exact List.mem_map_of_mem Profile.name hq)
        simpa using hqne
      rw [List.filter_cons, if_neg (by simp [hp])]
      rw [hall, List.length_cons]
    · have hsel' : sel ∈ rest.map Profile.name := by
        rcases List.mem_cons.mp hsel with he | hm
        · exact absurd he.symm hp
        · exact hm
      rw [List.filter_cons, if_pos (by simpa using hp)]
      simp only [List.length_cons]
      have := ih hnodup.2 hsel'
      omega

/-- C8: after deleting any (present, uniquely named) profile: a non-null
`current_profile` still references an existing profile name; deleting the
active profile reassigns `current_profile` to the first remaining profile
(or null when none remain); deleting a non-active profile keeps
`current_profile`; and exactly the selected profile is removed. -/
theorem delete_profile_invariant (config : AppConfigModel) (sel : String)
    (hcur : ∀ n, config.current_profile = some n → n ∈ config.profiles.map Profile.name)
    (hnodup : (config.profiles.map Profile.name).Nodup)
    (hsel : sel ∈ config.profiles.map Profile.name) :
    (∀ n, (confirmDeleteProfile config sel).current_profile = some n →
      n ∈ (confirmDeleteProfile config sel).profiles.map Profile.name) ∧
    (config.current_profile = some sel →
      (confirmDeleteProfile config sel).current_profile =
        ((config.profiles.filter (fun p => p.name != sel)).head?.map Profile.name)) ∧
    (config.current_profile ≠ some sel →
      (confirmDeleteProfile config sel).current_profile = config.current_profile) ∧
    ((confirmDeleteProfile config sel).profiles.length + 1 = config.profiles.length) ∧
    (∀ p, p ∈ (confirmDeleteProfile config sel).profiles ↔
      (p ∈ config.profiles ∧ p.name ≠ sel)) := by
  refine ⟨?_, ?_, ?_, ?_, ?_⟩
  · intro n hn
    simp only [confirmDeleteProfile] at hn ⊢
    by_cases hc : config.current_profile = some sel
    · rw [if_pos hc] at hn
      cases hf : config.profiles.filter (fun p => p.name != sel) with
      | nil =>
        rw [hf] at hn
        exact Option.noConfusion hn
      | cons q qrest =>
        rw [hf] at hn
        have hq : n = q.name := by
          injection hn with h
          exact h.symm
        subst hq
        exact List.mem_map_of_mem Profile.name (List.mem_cons_self q qrest)
    · rw [if_neg hc] at hn
      have hne : n ≠ sel := by
        intro he
        exact hc (he ▸ hn)
      obtain ⟨p, hpmem, hpname⟩ := List.mem_map.mp (hcur n hn)
      have hpne : p.name ≠ sel := by
        rw [hpname]
        exact hne
      exact List.mem_map.mpr ⟨p, List.mem_filter.mpr ⟨hpmem, by simpa using hpne⟩, hpname⟩
  · intro hc
    simp only [confirmDeleteProfile]
    rw [if_pos hc]
    cases config.profiles.filter (fun p => p.name != sel) with
    | nil => rfl
    | cons q qrest => rfl
  · intro hc
    simp only [confirmDeleteProfile]
    rw [if_neg hc]
  · exact filter_ne_length config.profiles sel hnodup hsel
  · intro p
    simp only [confirmDeleteProfile]
    constructor
    · intro hp
      have := List.mem_filter.mp hp
      exact ⟨this.1, by simpa using this.2⟩
    · intro ⟨h1, h2⟩
      exact List.mem_filter.mpr ⟨h1, by simpa using h2⟩

/-- Witness for `delete_profile_invariant`: deleting the active profile
`"a"` from `["a", "b"]` reassigns the current profile to `"b"` and removes
exactly one profile. -/
theorem delete_profile_invariant_witness :
    (confirmDeleteProfile ⟨[⟨"a", []⟩, ⟨"b", []⟩], some "a"⟩ "a").current_profile = some "b" ∧
    (confirmDeleteProfile ⟨[⟨"a", []⟩, ⟨"b", []⟩], some "a"⟩ "a").profiles.length + 1 = 2 := by
  constructor
  · have h := (delete_profile_invariant ⟨[⟨"a", []⟩, ⟨"b", []⟩], some "a"⟩ "a"
      (by intro n hn; cases hn; decide) (by decide) (by decide)).2.1 rfl
    exact h.trans (by decide)
  · exact (delete_profile_invariant ⟨[⟨"a", []⟩, ⟨"b", []⟩], some "a"⟩ "a"
      (by intro n hn; cases hn; decide) (by decide) (by decide)).2.2.2.1

end Profiles

namespace Queries

/-- Configuration of a react-query read query as set in `useEtcdQuery.ts`:
`staleTime` in milliseconds and the bounded automatic `retry` count. -/
structure ReadQueryConfig where
  staleTime : Nat
  retry : Nat
deriving DecidableEq, Repr

/-- `useEtcdItemsQuery` (src/src/hooks/useEtcdQuery.ts, lines 4-16):
`staleTime: 1000 * 60, retry: 2`. -/
def etcdItemsQuery : ReadQueryConfig := ⟨1000 * 60, 2⟩

/-- `useClusterInfoQuery` (src/src/hooks/useEtcdQuery.ts, lines 18-29):
`staleTime: 1000 * 60, retry: 2`. -/
def clusterInfoQuery : ReadQueryConfig := ⟨1000 * 60, 2⟩

/-- `useEtcdKeysOnlyQuery` (src/src/hooks/useEtcdQuery.ts, lines 31-43):
`staleTime: 1000 * 60, retry: 2`. -/
def etcdKeysOnlyQuery : ReadQueryConfig := ⟨1000 * 60, 2⟩

/-- `useEtcdValuesInRangeQuery` (src/src/hooks/useEtcdQuery.ts, lines
45-58): `staleTime: 1000 * 60, retry: 2`. -/
def etcdValuesInRangeQuery : ReadQueryConfig := ⟨1000 * 60, 2⟩

/-- A remote mutation call issued by a dialog. -/
inductive RemoteCall where
  | putItem (key value : String)
  | deleteItem (key : String)
deriving DecidableEq, Repr

/-- `handleDeleteConfirm` (src/unnamed/part_002, lines 33-61): the remote
calls issued by one confirmation of the delete dialog — early return on a
falsy key, otherwise a single `deleteEtcdItem` with no retry loop (a
failure only raises an error toast). -/
def handleDeleteConfirm (keyToDelete : String) : List RemoteCall :=
  if keyToDelete.isEmpty then [] else [RemoteCall.deleteItem keyToDelete]

/-- Strip leading JS whitespace from a character list. -/
def jsTrimLeftList : List Char → List Char
  | [] => []
  | c :: cs =>
    if c = ' ' ∨ c = '\t' ∨ c = '\n' ∨ c = '\r' then jsTrimLeftList cs else c :: cs

/-- JS `s.trim()`: strip whitespace from both ends. -/
def jsTrim (s : String) : String :=
  ⟨(jsTrimLeftList (jsTrimLeftList s.data.reverse)).reverse⟩

/-- `handleAddConfirm` (src/unnamed/part_003, lines 34-66): early return
when the trimmed key or value is falsy (empty), otherwise a single
`putEtcdItem`. -/
def handleAddConfirm (key value : String) : List RemoteCall :=
  if (jsTrim key).isEmpty || (jsTrim value).isEmpty then []
  else [RemoteCall.putItem key value]

/-- `handleEditConfirm` (src/src/components/dialogs/EditKeyDialog.tsx,
lines 40-69): early return when the trimmed key or value is falsy (empty),
otherwise a single `putEtcdItem`. -/
def handleEditConfirm (key value : String) : List RemoteCall :=
  if (jsTrim key).isEmpty || (jsTrim value).isEmpty then []
  else [RemoteCall.putItem key value]

/-- C9: every read query is configured with exactly 2 automatic retries
(bounded by 2), while one confirmation of the delete/add/edit dialog issues
exactly one remote delete/put call, with no retry loop around it. -/
theorem read_retries_bounded_mutation_single (k v : String)
    (hk : k.isEmpty = false) (hkt : (jsTrim k).isEmpty = false)
    (hvt : (jsTrim v).isEmpty = false) :
    etcdItemsQuery.retry = 2 ∧ clusterInfoQuery.retry = 2 ∧
    etcdKeysOnlyQuery.retry = 2 ∧ etcdValuesInRangeQuery.retry = 2 ∧
    etcdItemsQuery.retry ≤ 2 ∧ etcdValuesInRangeQuery.retry ≤ 2 ∧
    handleDeleteConfirm k = [RemoteCall.deleteItem k] ∧
    handleAddConfirm k v = [RemoteCall.putItem k v] ∧
    handleEditConfirm k v = [RemoteCall.putItem k v] := by
  refine ⟨rfl, rfl, rfl, rfl, le_refl 2, le_refl 2, ?_, ?_, ?_⟩
  · unfold handleDeleteConfirm
    rw [hk]
    rfl
  · unfold handleAddConfirm
    rw [hkt, hvt]
    rfl
  · unfold handleEditConfirm
    rw [hkt, hvt]
    rfl

/-- Witness for `read_retries_bounded_mutation_single` at the key
`"/config/app"` and value `"1"`. -/
theorem read_retries_bounded_mutation_single_witness :
    ("/config/app" : String).isEmpty = false ∧
    handleDeleteConfirm "/config/app" = [RemoteCall.deleteItem "/config/app"] ∧
    handleAddConfirm "/config/app" "1" = [RemoteCall.putItem "/config/app" "1"] :=
  ⟨rfl,
    (read_retries_bounded_mutation_single "/config/app" "1" rfl (by decide) (by decide)).2.2.2.2.2.2.1,
    (read_retries_bounded_mutation_single "/config/app" "1" rfl (by decide) (by decide)).2.2.2.2.2.2.2.1⟩

end Queries
